import Mathlib

/-!
Verification of `urnparse` (RFC 8141 URN parser, `src/urnparse/__init__.py`).

Python strings are modelled as `List Char` (`PyStr`).  Python's standard
library helpers used by the parser (`str.startswith`, `str.count`,
`str.split`, `str.rstrip`, `str.rfind`, `urllib.parse.quote`, `unquote`,
`parse_qs`, `urlencode`) are modelled first, then the regular expressions of
the module, then the classes `NSIdentifier`, `NSSString`, `RQFComponent`
and `URN8141`.  Exceptions (`InvalidURNFormatError`) are modelled with
`Except String`.
-/

abbrev PyStr := List Char

/-- `s.startswith(p)` for Python strings. -/
def pyStartswith : PyStr → PyStr → Bool
  | _, [] => true
  | [], _ :: _ => false
  | c :: s, p :: ps => c == p && pyStartswith s ps

/-- `s.split(sep)` for a one-character separator: Python semantics, so the
empty string splits to `['']` and separators at the ends produce empty
chunks. -/
def pySplitChar (sep : Char) : PyStr → List PyStr
  | [] => [[]]
  | c :: rest =>
    let r := pySplitChar sep rest
    if c = sep then [] :: r
    else
      match r with
      | [] => [[c]]
      | h :: t => (c :: h) :: t

/-- `s.rstrip('#')`: drop every trailing `'#'`. -/
def pyRstripHash (s : PyStr) : PyStr := (s.reverse.dropWhile (fun c => c = '#')).reverse

/-- `s.rfind(sub)`: the greatest index at which `sub` occurs in `s`,
and `-1` when there is none (Python returns an `int`). -/
def pyRfind (s sub : PyStr) : Int :=
  match ((List.range (s.length + 1)).filter (fun i => pyStartswith (s.drop i) sub)).getLast? with
  | some i => (i : Int)
  | none => -1

/-- `s[:i]` for a Python `int` index `i`; at its call sites below `i` is
always `≥ 0` (the NSS boundary starts at the length and is only ever
lowered to strictly positive separator indices). -/
def pyTakeInt (s : PyStr) (i : Int) : PyStr := s.take i.toNat

/-- `s[i:]` for a Python `int` index `i ≥ 0`. -/
def pyDropInt (s : PyStr) (i : Int) : PyStr := s.drop i.toNat

/-- `s.replace('+', ' ')`, used by `urllib.parse.parse_qsl`. -/
def pyReplacePlusSpace (s : PyStr) : PyStr := s.map (fun c => if c = '+' then ' ' else c)

/-! ### Percent codec (`urllib.parse.quote` / `unquote`) -/

/-- Characters `urllib.parse.quote` never escapes (`_ALWAYS_SAFE`):
ASCII alphanumerics and `_.-~`. -/
def quoteAlwaysSafe (c : Char) : Bool :=
  c.isAlphanum || c = '_' || c = '.' || c = '-' || c = '~'

/-- The safe set of `quote` with its default `safe='/'`. -/
def quoteSafeSlash (c : Char) : Bool := quoteAlwaysSafe c || c = '/'

/-- UTF-8 encoding of a code point, as byte values.  Arithmetic form of the
usual bit operations (`0xC0 ||| (n >>> 6)` is `0xC0 + n / 0x40` in the
relevant ranges, and so on). -/
def utf8Bytes (n : Nat) : List Nat :=
  if n < 0x80 then [n]
  else if n < 0x800 then [0xC0 + n / 0x40, 0x80 + n % 0x40]
  else if n < 0x10000 then [0xE0 + n / 0x1000, 0x80 + (n / 0x40) % 0x40, 0x80 + n % 0x40]
  else [0xF0 + n / 0x40000, 0x80 + (n / 0x1000) % 0x40, 0x80 + (n / 0x40) % 0x40, 0x80 + n % 0x40]

/-- Uppercase hexadecimal digit, as produced by `quote` (`'%%%02X'`). -/
def hexDigit (n : Nat) : Char :=
  if n < 10 then Char.ofNat (48 + n) else Char.ofNat (55 + n)

/-- `'%XX'` escape for one byte. -/
def percentByte (b : Nat) : PyStr := ['%', hexDigit (b / 16), hexDigit (b % 16)]

/-- One character under `quote`: kept when safe, otherwise each UTF-8 byte
becomes a `%XX` escape. -/
def quoteChar (safe : Char → Bool) (c : Char) : PyStr :=
  if safe c then [c] else (utf8Bytes c.toNat).flatMap percentByte

/-- `urllib.parse.quote(s)` with the default `safe='/'` (used by
`NSSString.__init__` for `encoded=False`). -/
def pyQuote (s : PyStr) : PyStr := s.flatMap (quoteChar quoteSafeSlash)

/-- `urllib.parse.quote(s, safe='')` (used by `urlencode(..., quote_via=quote)`,
whose default `safe` argument is the empty string). -/
def pyQuoteEmpty (s : PyStr) : PyStr := s.flatMap (quoteChar quoteAlwaysSafe)

/-- Hexadecimal digit test of `unquote` (`string.hexdigits`). -/
def isHexDigitPy (c : Char) : Bool :=
  c.isDigit || ('a' ≤ c && c ≤ 'f') || ('A' ≤ c && c ≤ 'F')

/-- Value of a hexadecimal digit. -/
def hexVal (c : Char) : Nat :=
  if c.isDigit then c.toNat - 48
  else if 'a' ≤ c && c ≤ 'f' then c.toNat - 87
  else c.toNat - 55

/-- Is `b` a UTF-8 continuation byte (`0x80..0xBF`)? -/
def utf8Cont (b : Nat) : Bool := 0x80 ≤ b && b < 0xC0

/-- Valid range of the first continuation byte after a 3- or 4-byte lead
(`E0` wants `A0..BF`, `ED` wants `80..9F`, `F0` wants `90..BF`,
`F4` wants `80..8F`, the rest want `80..BF`). -/
def utf8Cont2 (lead b : Nat) : Bool :=
  if lead = 0xE0 then 0xA0 ≤ b && b < 0xC0
  else if lead = 0xED then 0x80 ≤ b && b < 0xA0
  else if lead = 0xF0 then 0x90 ≤ b && b < 0xC0
  else if lead = 0xF4 then 0x80 ≤ b && b < 0x90
  else utf8Cont b

/-- U+FFFD, the replacement character of `errors='replace'`. -/
def replChar : Char := Char.ofNat 0xFFFD

/-- Fuelled worker for `bytes.decode('utf-8', 'replace')`: each maximal
subpart of an ill-formed sequence becomes one U+FFFD.  Structural recursion
on the fuel keeps the function kernel-reducible; one unit of fuel is spent
per decoded unit, so `fuel = length` always suffices. -/
def utf8DecodeReplaceF : Nat → List Nat → List Char
  | 0, _ => []
  | _ + 1, [] => []
  | fuel + 1, b :: rest =>
    if b < 0x80 then Char.ofNat b :: utf8DecodeReplaceF fuel rest
    else if b < 0xC2 then replChar :: utf8DecodeReplaceF fuel rest
    else if b < 0xE0 then
      match rest with
      | [] => [replChar]
      | b2 :: r2 =>
        if utf8Cont b2 then
          Char.ofNat ((b - 0xC0) * 0x40 + (b2 - 0x80)) :: utf8DecodeReplaceF fuel r2
        else replChar :: utf8DecodeReplaceF fuel (b2 :: r2)
    else if b < 0xF0 then
      match rest with
      | [] => [replChar]
      | b2 :: r2 =>
        if utf8Cont2 b b2 then
          match r2 with
          | [] => [replChar]
          | b3 :: r3 =>
            if utf8Cont b3 then
              Char.ofNat ((b - 0xE0) * 0x1000 + (b2 - 0x80) * 0x40 + (b3 - 0x80)) ::
                utf8DecodeReplaceF fuel r3
            else replChar :: utf8DecodeReplaceF fuel (b3 :: r3)
        else replChar :: utf8DecodeReplaceF fuel (b2 :: r2)
    else if b < 0xF5 then
      match rest with
      | [] => [replChar]
      | b2 :: r2 =>
        if utf8Cont2 b b2 then
          match r2 with
          | [] => [replChar]
          | b3 :: r3 =>
            if utf8Cont b3 then
              match r3 with
              | [] => [replChar]
              | b4 :: r4 =>
                if utf8Cont b4 then
                  Char.ofNat ((b - 0xF0) * 0x40000 + (b2 - 0x80) * 0x1000 +
                      (b3 - 0x80) * 0x40 + (b4 - 0x80)) :: utf8DecodeReplaceF fuel r4
                else replChar :: utf8DecodeReplaceF fuel (b4 :: r4)
            else replChar :: utf8DecodeReplaceF fuel (b3 :: r3)
        else replChar :: utf8DecodeReplaceF fuel (b2 :: r2)
    else replChar :: utf8DecodeReplaceF fuel rest

/-- `bytes.decode('utf-8', 'replace')`. -/
def utf8DecodeReplace (bs : List Nat) : List Char := utf8DecodeReplaceF bs.length bs

/-- Fuelled worker of `unquote`: accumulates the bytes of the current run of
ASCII characters and `%XX` escapes (in reverse), flushing it through the
UTF-8 decoder at the end of the run.  Mirrors `unquote` splitting the string
into ASCII chunks, converting each chunk with `unquote_to_bytes` and
decoding it with `errors='replace'`; a `'%'` not followed by two hex digits
stays literal.  One unit of fuel is spent per input character, so
`fuel = length` always suffices; structural recursion on the fuel keeps the
function kernel-reducible. -/
def pyUnquoteAuxF : Nat → PyStr → List Nat → PyStr
  | 0, _, acc => utf8DecodeReplace acc.reverse
  | _ + 1, [], acc => utf8DecodeReplace acc.reverse
  | fuel + 1, '%' :: rest, acc =>
    match rest with
    | a :: b :: rest2 =>
      if isHexDigitPy a && isHexDigitPy b then
        pyUnquoteAuxF fuel rest2 ((hexVal a * 16 + hexVal b) :: acc)
      else pyUnquoteAuxF fuel (a :: b :: rest2) ('%'.toNat :: acc)
    | _ => pyUnquoteAuxF fuel rest ('%'.toNat :: acc)
  | fuel + 1, c :: rest, acc =>
    if c.toNat < 0x80 then pyUnquoteAuxF fuel rest (c.toNat :: acc)
    else utf8DecodeReplace acc.reverse ++ c :: pyUnquoteAuxF fuel rest []

/-- `urllib.parse.unquote(s)` with its defaults
(`encoding='utf-8'`, `errors='replace'`). -/
def pyUnquote (s : PyStr) : PyStr := pyUnquoteAuxF s.length s []

/-! ### `parse_qs` (`urllib.parse`) -/

/-- `name_value.split('=', 1)`: split at the first `'='` when there is one. -/
def splitFirstEq : PyStr → Option (PyStr × PyStr)
  | [] => none
  | c :: rest =>
    if c = '=' then some ([], rest)
    else
      match splitFirstEq rest with
      | none => none
      | some (n, v) => some (c :: n, v)

/-- One `&`-chunk of `parse_qsl` with the default
`keep_blank_values=False, strict_parsing=False`: empty chunks, chunks
without `'='` and chunks with an empty value are dropped; name and value
have `'+'` replaced by a space and are percent-decoded. -/
def qslChunk (chunk : PyStr) : Option (PyStr × PyStr) :=
  if chunk = [] then none
  else
    match splitFirstEq chunk with
    | none => none
    | some (n, v) =>
      if v = [] then none
      else some (pyUnquote (pyReplacePlusSpace n), pyUnquote (pyReplacePlusSpace v))

/-- `urllib.parse.parse_qsl(qs)` with its default arguments. -/
def pyParseQsl (qs : PyStr) : List (PyStr × PyStr) :=
  (pySplitChar '&' qs).filterMap qslChunk

/-- The dict-building step of `parse_qs`: append the value to an existing
key's list, otherwise add the key at the end (Python dicts preserve
insertion order). -/
def dictAppend : List (PyStr × List PyStr) → PyStr → PyStr → List (PyStr × List PyStr)
  | [], k, v => [(k, [v])]
  | (k', vs) :: rest, k, v =>
    if k' = k then (k', vs ++ [v]) :: rest else (k', vs) :: dictAppend rest k v

/-- `urllib.parse.parse_qs(qs)`: a mapping from each key to the list of its
values, keys in order of first occurrence. -/
def pyParseQs (qs : PyStr) : List (PyStr × List PyStr) :=
  (pyParseQsl qs).foldl (fun d p => dictAppend d p.1 p.2) []

/-! ### The module's regular expressions

Python's `re.match` with a pattern of the shape `^...$` matches iff the
regex consumes the whole string or everything up to one final newline
(`'$'` matches at the end of the string or just before a trailing newline);
none of the character classes in the module's patterns matches `'\n'`, so
each model below is `core s || (last is newline && core (dropLast s))`. -/

/-- The four non-ASCII letters that Python's Unicode case-insensitive
matching adds to an `[a-z]` (or `[A-Z]`) range, per the `re` documentation:
`İ` (U+0130, capital I with dot above), `ı` (U+0131, dotless i),
`ſ` (U+017F, long s) and `K` (U+212A, Kelvin sign). -/
def ignorecaseExtraLatin (c : Char) : Bool :=
  c.toNat = 0x130 || c.toNat = 0x131 || c.toNat = 0x17F || c.toNat = 0x212A

/-- First character class of `NID_PATTERN` (`[0-9a-z]` with `re.IGNORECASE`
on a `str` pattern: the 62 ASCII alphanumerics plus the four extra
letters of Unicode case folding). -/
def isNidChar1 (c : Char) : Bool := c.isAlphanum || ignorecaseExtraLatin c

/-- Second character class of `NID_PATTERN` (`[0-9a-z-]` with
`re.IGNORECASE`, likewise extended by the four case-fold letters). -/
def isNidChar2 (c : Char) : Bool := c.isAlphanum || ignorecaseExtraLatin c || c = '-'

/-- `NID_PATTERN = ^[0-9a-z][0-9a-z-]{1,31}$` without the `'$'` subtlety:
one leading alphanumeric and 1 to 31 further characters. -/
def nidCore : PyStr → Bool
  | [] => false
  | c :: rest =>
    isNidChar1 c && decide (1 ≤ rest.length) && decide (rest.length ≤ 31) && rest.all isNidChar2

/-- `re.match(NID_PATTERN, s)` as a Boolean. -/
def reMatchNid (s : PyStr) : Bool :=
  nidCore s || (s.getLast? == some '\n' && nidCore s.dropLast)

/-- One-character alternatives of `NSS_PCHAR`
(`[a-z0-9-._~]`, `[!$&'()*+,;=]`, `:`, `@`, case-insensitive; the
apostrophe is written by code point). -/
def isNssPchar (c : Char) : Bool :=
  c.isAlphanum || c = '-' || c = '.' || c = '_' || c = '~' ||
  c = '!' || c = '$' || c = '&' || c.toNat = 39 || c = '(' || c = ')' ||
  c = '*' || c = '+' || c = ',' || c = ';' || c = '=' || c = ':' || c = '@'

/-- `(NSS_PCHAR|/|\?)*`: the tail groups of `NSS_PATTERN`.  A `'%'` can only
be consumed as a `%[a-f0-9]{2}` escape (case-insensitive), so the match
fails when fewer than two hexadecimal digits follow it. -/
def nssTail : PyStr → Bool
  | [] => true
  | c :: rest =>
    if c = '%' then
      match rest with
      | a :: b :: rest2 => isHexDigitPy a && isHexDigitPy b && nssTail rest2
      | _ => false
    else (isNssPchar c || c = '/' || c = '?') && nssTail rest

/-- `^(NSS_PCHAR)(NSS_PCHAR|/|\?)*$` without the `'$'` subtlety: the first
group must be a pchar (not `/` or `?`). -/
def nssCore : PyStr → Bool
  | [] => false
  | c :: rest =>
    if c = '%' then
      match rest with
      | a :: b :: rest2 => isHexDigitPy a && isHexDigitPy b && nssTail rest2
      | _ => false
    else isNssPchar c && nssTail rest

/-- `re.match(NSS_PATTERN, s)` as a Boolean. -/
def nssMatch (s : PyStr) : Bool :=
  nssCore s || (s.getLast? == some '\n' && nssCore s.dropLast)

/-! ### `RQF_PATTERN`

`^(?!$)(?:\?\+(?P<resolution_string>.*?))?(?:\?=(?P<query_string>.*?))?`
`(?:#(?P<fragment>.*?))?$` — three greedy optional groups, each holding a
lazy `.*?` (which cannot cross `'\n'`); an optional group is attempted, with
all its lazy extents and the whole continuation, before being skipped.
Unattempted groups yield `None` in `groupdict()`. -/

/-- Named groups of a successful `RQF_PATTERN` match; `none` is Python's
`None` for a group that did not participate. -/
structure RQFGroups where
  resolution_string : Option PyStr
  query_string : Option PyStr
  fragment : Option PyStr
deriving DecidableEq

/-- Can `'$'` match at this position (at the very end, or just before one
final newline)? -/
def dollarAt (r : PyStr) : Bool := r == [] || r == ['\n']

/-- Lazy `.*?` followed by the continuation `k`: the shortest split
`r = t ++ u` with `t` free of newlines and `k u` successful. -/
def lazyDot {α : Type} (k : PyStr → Option α) : PyStr → Option (PyStr × α)
  | [] =>
    match k [] with
    | some a => some ([], a)
    | none => none
  | c :: r =>
    match k (c :: r) with
    | some a => some ([], a)
    | none =>
      if c = '\n' then none
      else
        match lazyDot k r with
        | some (t, a) => some (c :: t, a)
        | none => none

/-- `(?:#(?P<fragment>.*?))?$` at the current position. -/
def tryFrag (rest : PyStr) : Option (Option PyStr) :=
  match rest with
  | '#' :: r =>
    match lazyDot (fun u => if dollarAt u then some () else none) r with
    | some (t, _) => some (some t)
    | none => if dollarAt rest then some none else none
  | _ => if dollarAt rest then some none else none

/-- `(?:\?=(?P<query_string>.*?))?` followed by the fragment group and `'$'`. -/
def tryQuery (rest : PyStr) : Option (Option PyStr × Option PyStr) :=
  match rest with
  | '?' :: '=' :: r =>
    (match lazyDot tryFrag r with
     | some (t, f) => some (some t, f)
     | none =>
       match tryFrag rest with
       | some f => some (none, f)
       | none => none)
  | _ =>
    match tryFrag rest with
    | some f => some (none, f)
    | none => none

/-- `(?:\?\+(?P<resolution_string>.*?))?` followed by the rest of the
pattern. -/
def tryRes (rest : PyStr) : Option RQFGroups :=
  match rest with
  | '?' :: '+' :: r =>
    (match lazyDot tryQuery r with
     | some (t, (q, f)) => some ⟨some t, q, f⟩
     | none =>
       match tryQuery rest with
       | some (q, f) => some ⟨none, q, f⟩
       | none => none)
  | _ =>
    match tryQuery rest with
    | some (q, f) => some ⟨none, q, f⟩
    | none => none

/-- `re.match(RQF_PATTERN, s)`: the leading `(?!$)` rejects a string at
whose start `'$'` already matches. -/
def rqfMatch (s : PyStr) : Option RQFGroups :=
  if dollarAt s then none else tryRes s

/-! ### `NSIdentifier` -/

/-- `_validate_nid(value, min_len, max_len, NID_PATTERN)`: length window
first, then the pattern. -/
def validate_nid (value : PyStr) (min_len max_len : Nat) : Except String Unit :=
  if value.length < min_len then Except.error "value is shorter than min_len"
  else if value.length > max_len then Except.error "value is longer than max_len"
  else if !(reMatchNid value) then Except.error "value contains invalid characters"
  else Except.ok ()

/-- Namespace identifier class: stores the validated raw value. -/
structure NSIdentifier where
  value : PyStr
deriving DecidableEq

/-- `NSIdentifier.__init__` (`MIN_LENGTH = 2`, `MAX_LENGTH = 32`). -/
def NSIdentifier.init (val : PyStr) : Except String NSIdentifier :=
  (validate_nid val 2 32).map (fun _ => ⟨val⟩)

/-- `NSIdentifier.__repr__`: the stored value unchanged. -/
def NSIdentifier.reprStr (n : NSIdentifier) : PyStr := n.value

/-! ### `NSSString` -/

/-- Namespace specific string class: percent-encoded form and decoded form
(`_value`). -/
structure NSSString where
  encoded : PyStr
  value : PyStr
deriving DecidableEq

/-- `NSSString.__init__(val, encoded)`: an already-encoded string must be
non-empty and match `NSS_PATTERN` and is decoded with `unquote`; a decoded
string is stored as-is and percent-encoded with `quote`. -/
def NSSString.init (val : PyStr) (encoded : Bool) : Except String NSSString :=
  if encoded then
    if val.length = 0 || !(nssMatch val) then Except.error "NSS string is invalid."
    else Except.ok ⟨val, pyUnquote val⟩
  else Except.ok ⟨pyQuote val, val⟩

/-- `NSSString.__repr__`: the encoded form. -/
def NSSString.reprStr (n : NSSString) : PyStr := n.encoded

/-! ### `RQFComponent` -/

/-- `RQFComponent.RESOLUTION_SEPERATOR` (sic). -/
def resolutionSeperator : PyStr := ['?', '+']

/-- `RQFComponent.QUERY_SEPERATOR`. -/
def querySeperator : PyStr := ['?', '=']

/-- `RQFComponent.FRAGMENT_SEPERATOR`. -/
def fragmentSeperator : PyStr := ['#']

/-- RQF component class: resolution and query argument maps (insertion
order, single values) and the fragment.  The fragment field holds exactly
what `__init__` received: a string, or `none` for Python's `None` (the
regex's non-participating group passed through `**matched.groupdict()`). -/
structure RQFComponent where
  resolution_args : List (PyStr × PyStr)
  query_args : List (PyStr × PyStr)
  fragment : Option PyStr
deriving DecidableEq

/-- `{k: v[0] for k, v in parse_qs(s).items()}` guarded by `s != ''`.
`none` models `None`: `None != ''` holds, and `parse_qs(None)` returns an
empty dict (`_coerce_args` turns the falsy `None` into `''`); `some []`
leaves the initial empty collection in place.  Either way the result is
empty, and otherwise it is the first-value projection of `parse_qs`. -/
def qsSingleDict (o : Option PyStr) : List (PyStr × PyStr) :=
  match o with
  | none => []
  | some s =>
    if s = [] then [] else (pyParseQs s).map (fun p => (p.1, p.2.headD []))

/-- `RQFComponent.__init__(resolution_string, query_string, fragment)`. -/
def RQFComponent.init (resolution_string query_string fragment : Option PyStr) :
    RQFComponent :=
  ⟨qsSingleDict resolution_string, qsSingleDict query_string, fragment⟩

/-- `urllib.parse.urlencode(d, quote_via=quote)`: `key=value` pairs joined
by `'&'`, both sides quoted with `safe=''`. -/
def pyUrlencode (d : List (PyStr × PyStr)) : PyStr :=
  match d with
  | [] => []
  | [p] => pyQuoteEmpty p.1 ++ '=' :: pyQuoteEmpty p.2
  | p :: rest => (pyQuoteEmpty p.1 ++ '=' :: pyQuoteEmpty p.2) ++ '&' :: pyUrlencode rest

/-- `RQFComponent.__repr__`: each separator is emitted only with non-empty
data behind it (`if len(...)` / the truthiness of `self.fragment`, which is
falsy both for `None` and for `''`). -/
def RQFComponent.reprStr (r : RQFComponent) : PyStr :=
  (if r.resolution_args.length ≠ 0 then resolutionSeperator ++ pyUrlencode r.resolution_args
   else []) ++
  (if r.query_args.length ≠ 0 then querySeperator ++ pyUrlencode r.query_args else []) ++
  (match r.fragment with
   | none => []
   | some f => if f.length ≠ 0 then fragmentSeperator ++ f else [])

/-! ### `URN8141` -/

/-- `URN_SCHEME`. -/
def urnScheme : PyStr := ['u', 'r', 'n']

/-- A parsed URN. -/
structure URN8141 where
  nid : NSIdentifier
  nss : NSSString
  rqf : RQFComponent
deriving DecidableEq

/-- `URN8141._get_nss_indices`: right-most occurrence of each separator,
then the ordered tightening of `eof` (resolution, then query, then
fragment), each step firing only for a strictly positive index strictly
below the current `eof`. -/
def eofStep (i e : Int) : Int := if 0 < i ∧ i < e then i else e

/-- The tuple `(rsi, qsi, fsi, eof)` returned by `_get_nss_indices`. -/
def URN8141.get_nss_indices (specific_part : PyStr) : Int × Int × Int × Int :=
  let rsi := pyRfind specific_part resolutionSeperator
  let qsi := pyRfind specific_part querySeperator
  let fsi := pyRfind specific_part fragmentSeperator
  (rsi, qsi, fsi, eofStep fsi (eofStep qsi (eofStep rsi specific_part.length)))

/-- `URN8141._parse_rqf_component`: the empty string and a failed
`RQF_PATTERN` match both give `RQFComponent('', '', '')`; otherwise the
named groups are splatted into the constructor. -/
def URN8141.parse_rqf_component (rqf_string : PyStr) : RQFComponent :=
  if rqf_string = [] then RQFComponent.init (some []) (some []) (some [])
  else
    match rqfMatch rqf_string with
    | none => RQFComponent.init (some []) (some []) (some [])
    | some g => RQFComponent.init g.resolution_string g.query_string g.fragment

/-- `urn_string.split(':')[1]`; the scheme guard of `from_string`
guarantees at least two colons, hence at least three chunks, so the
Python indexing cannot fail where this is used. -/
def URN8141.nidOf (urn_string : PyStr) : PyStr := (pySplitChar ':' urn_string).getD 1 []

/-- `urn_string[(len(URN_SCHEME) + len(nid) + 2):].rstrip('#')`. -/
def URN8141.specificPartOf (urn_string : PyStr) : PyStr :=
  pyRstripHash (urn_string.drop (urnScheme.length + (URN8141.nidOf urn_string).length + 2))

/-- The final `eof` computed by `_get_nss_indices` for this URN string. -/
def URN8141.eofOf (urn_string : PyStr) : Int :=
  (URN8141.get_nss_indices (URN8141.specificPartOf urn_string)).2.2.2

/-- `specific_part[:eof_nss]`. -/
def URN8141.nssOf (urn_string : PyStr) : PyStr :=
  pyTakeInt (URN8141.specificPartOf urn_string) (URN8141.eofOf urn_string)

/-- `specific_part[eof_nss:]`. -/
def URN8141.rqfStrOf (urn_string : PyStr) : PyStr :=
  pyDropInt (URN8141.specificPartOf urn_string) (URN8141.eofOf urn_string)

/-- `URN8141.from_string(urn_string, encoded=True)`: scheme guard, then NID
extraction, specific-part extraction, boundary computation, RQF parsing and
the delegated `NSIdentifier` / `NSSString` validations. -/
def URN8141.from_string (urn_string : PyStr) (encoded : Bool) : Except String URN8141 :=
  if !(pyStartswith urn_string urnScheme) || List.count ':' urn_string < 2 then
    Except.error "URN string is invalid."
  else
    let rqf := URN8141.parse_rqf_component (URN8141.rqfStrOf urn_string)
    do
      let nid ← NSIdentifier.init (URN8141.nidOf urn_string)
      let nss ← NSSString.init (URN8141.nssOf urn_string) encoded
      Except.ok ⟨nid, nss, rqf⟩

/-- `URN8141.__repr__`: `urn:{nid}:{nss}{rqf}` through the components'
representations. -/
def URN8141.reprStr (u : URN8141) : PyStr :=
  ['u', 'r', 'n', ':'] ++ NSIdentifier.reprStr u.nid ++
    ':' :: NSSString.reprStr u.nss ++ RQFComponent.reprStr u.rqf

/-- `URN8141.__eq__` between two `URN8141` values:
`self._nid == other.namespace_id and self._nss == other.specific_string`,
where `NSIdentifier.__eq__` compares the stored values and
`NSSString.__eq__` compares the encoded forms.  The RQF component is not
consulted. -/
def URN8141.beq (a b : URN8141) : Bool :=
  a.nid.value == b.nid.value && a.nss.encoded == b.nss.encoded

/-- `dict`-style first-value lookup over an association list (the value the
Python dicts of `RQFComponent` yield for a key). -/
def lookupPairs (d : List (PyStr × PyStr)) (k : PyStr) : Option PyStr :=
  (d.find? (fun p => p.1 == k)).map (fun p => p.2)

/-! ### Claim-side definitions (formalised from the specification's words,
to be compared with the definitions above that come from the source) -/

/-- `[0-9a-zA-Z]` spelled from the specification: an ASCII digit, lowercase
or uppercase letter, by code point. -/
def claimAlnum (c : Char) : Bool :=
  (48 ≤ c.toNat && c.toNat ≤ 57) || (97 ≤ c.toNat && c.toNat ≤ 122) ||
    (65 ≤ c.toNat && c.toNat ≤ 90)

/-- The NID grammar as the claim states it: first character alphanumeric,
remaining 1 to 31 characters alphanumeric or `'-'`. -/
def claimNidGrammar : PyStr → Bool
  | [] => false
  | c :: rest =>
    claimAlnum c && decide (1 ≤ rest.length) && decide (rest.length ≤ 31) &&
      rest.all (fun d => claimAlnum d || d = '-')

/-- The NID grammar as the code actually checks it: the claim's character
classes widened by the four non-ASCII letters of Python's Unicode
case-insensitive matching (`İ` U+0130, `ı` U+0131, `ſ` U+017F and the
Kelvin sign U+212A). -/
def claimNidGrammarU : PyStr → Bool
  | [] => false
  | c :: rest =>
    (claimAlnum c || ignorecaseExtraLatin c) && decide (1 ≤ rest.length) &&
      decide (rest.length ≤ 31) &&
      rest.all (fun d => claimAlnum d || ignorecaseExtraLatin d || d = '-')

/-- The NSS/RQF boundary as the claim states it: the minimum of the
right-most occurrence indices of the three separators among those that are
strictly positive and strictly less than the length, or the full length
when no such index exists. -/
def claimBoundary (sp : PyStr) : Int :=
  let n : Int := sp.length
  match [pyRfind sp resolutionSeperator, pyRfind sp querySeperator,
      pyRfind sp fragmentSeperator].filter (fun i => decide (0 < i) && decide (i < n)) with
  | [] => n
  | h :: t => t.foldl min h

/-! ### Concrete inputs used by the claims -/

/-- The URN of the round-trip test. -/
def urnExample123 : PyStr :=
  ("urn:tests:example:attributes:123?=key=value%3Asubvalue#example.org").data

/-- The same URN with specific-string suffix `234`. -/
def urnExample234 : PyStr :=
  ("urn:tests:example:attributes:234?=key=value%3Asubvalue#example.org").data

/-- A URN with a query but neither resolution nor fragment part. -/
def urnPlainQuery : PyStr := ("urn:ab:cd?=x=y").data

/-- A URN with the same NID and NSS but a different RQF suffix. -/
def urnPlainFragment : PyStr := ("urn:ab:cd#z").data

/-- The rejected `uri:` scheme example. -/
def uriRejected : PyStr := ("uri:tests#example.org").data

/-- The query string of the RQF serialization example. -/
def qstrExample : PyStr := ("a=a%20test&b=b%20test").data

/-- The fragment of the RQF serialization example. -/
def fragExample : PyStr := ("example.org").data

/-! ## Theorems -/

/-- Claim C1: parsing
`urn:tests:example:attributes:123?=key=value%3Asubvalue#example.org` with
`URN8141.from_string` (`encoded=True`) succeeds, the namespace identifier is
`tests`, the decoded specific string is `example:attributes:123`, and the
textual representation round-trips to the original input exactly. -/
theorem urn8141_example_roundtrip :
    (URN8141.from_string urnExample123 true).toOption.map
        (fun u => (u.nid.value, u.nss.value, URN8141.reprStr u)) =
      some (("tests").data, ("example:attributes:123").data, urnExample123) := by
  decide

/-- Claim C2: two URNs are equal iff their namespace identifiers and their
namespace-specific strings agree; the RQF component never influences
equality.  Concretely, the parses of the `...123...` and `...234...` strings
are unequal, and two parses with identical NID and NSS but different RQF
suffixes are equal. -/
theorem urn8141_equality_ignores_rqf :
    (∀ u v : URN8141,
        URN8141.beq u v = true ↔ (u.nid.value = v.nid.value ∧ u.nss.encoded = v.nss.encoded)) ∧
    (∀ u v : URN8141, ∀ r1 r2 : RQFComponent,
        URN8141.beq ⟨u.nid, u.nss, r1⟩ ⟨v.nid, v.nss, r2⟩ = URN8141.beq u v) ∧
    ((URN8141.from_string urnExample123 true).toOption.bind
        (fun u => (URN8141.from_string urnExample234 true).toOption.map
          (fun v => URN8141.beq u v)) = some false) ∧
    ((URN8141.from_string urnPlainQuery true).toOption.bind
        (fun u => (URN8141.from_string urnPlainFragment true).toOption.map
          (fun v => URN8141.beq u v)) = some true) := by
  refine ⟨?_, ?_, ?_, ?_⟩
  · intro u v
    simp [URN8141.beq]
  · intro u v r1 r2
    simp [URN8141.beq]
  · decide
  · decide

/-- Claim C4: `from_string` raises `InvalidFormat` whenever the input does
not start with `urn` or contains fewer than two colons. -/
theorem from_string_scheme_guard (s : PyStr) (e : Bool)
    (h : pyStartswith s urnScheme = false ∨ List.count ':' s < 2) :
    (URN8141.from_string s e).isOk = false := by
  unfold URN8141.from_string
  rcases h with h | h
  · simp [h, Except.isOk, Except.toBool]
  · simp [h, Except.isOk, Except.toBool]

/-- Witness for C4 at the concrete rejected input `uri:tests#example.org`
(which both lacks the `urn` scheme and has fewer than two colons). -/
theorem from_string_scheme_guard_witness :
    pyStartswith uriRejected urnScheme = false ∧
      (URN8141.from_string uriRejected true).isOk = false :=
  ⟨by decide, from_string_scheme_guard uriRejected true (Or.inl (by decide))⟩

/-- The ordered tightening chain of `_get_nss_indices` computes the minimum
of the candidate indices that are strictly positive and strictly below `n`,
or `n` itself when there is no such candidate. -/
theorem eofSteps_eq_min (a b c n : Int) :
    eofStep c (eofStep b (eofStep a n)) =
      (match [a, b, c].filter (fun i => decide (0 < i) && decide (i < n)) with
       | [] => n
       | h :: t => t.foldl min h) := by
  by_cases ha : 0 < a ∧ a < n <;> by_cases hb : 0 < b ∧ b < n <;> by_cases hc : 0 < c ∧ c < n <;>
    simp only [eofStep, List.filter_cons, List.filter_nil, Bool.and_eq_true, decide_eq_true_eq,
      ha, hb, hc, if_true, if_false, true_and, and_true, false_and, and_false,
      List.foldl_cons, List.foldl_nil] <;>
    first
      | omega
      | (split_ifs <;> first | omega | (simp only [Int.min_def] <;> split_ifs <;> omega))

/-- Claim C3: for every specific-part string, the NSS/RQF boundary computed
by the ordered tightening procedure of `_get_nss_indices` equals the
minimum of the right-most occurrence indices of the three separators among
those that are strictly positive and strictly less than the length, or the
full length when no such index exists. -/
theorem get_nss_indices_claim (sp : PyStr) :
    (URN8141.get_nss_indices sp).2.2.2 = claimBoundary sp := by
  unfold URN8141.get_nss_indices claimBoundary
  exact eofSteps_eq_min _ _ _ _

/-- The claim's code-point spelling of `[0-9a-zA-Z]` agrees with
`Char.isAlphanum`. -/
theorem claimAlnum_eq (c : Char) : claimAlnum c = c.isAlphanum := by
  rw [Bool.eq_iff_iff]
  simp only [claimAlnum, Char.isAlphanum, Char.isAlpha, Char.isUpper, Char.isLower, Char.isDigit,
    Bool.or_eq_true, Bool.and_eq_true, decide_eq_true_eq, ge_iff_le, UInt32.le_def, BitVec.le_def]
  have h48 : (UInt32.toBitVec 48).toNat = 48 := rfl
  have h57 : (UInt32.toBitVec 57).toNat = 57 := rfl
  have h65 : (UInt32.toBitVec 65).toNat = 65 := rfl
  have h90 : (UInt32.toBitVec 90).toNat = 90 := rfl
  have h97 : (UInt32.toBitVec 97).toNat = 97 := rfl
  have h122 : (UInt32.toBitVec 122).toNat = 122 := rfl
  have hv : c.val.toBitVec.toNat = c.toNat := rfl
  rw [h48, h57, h65, h90, h97, h122, hv]
  tauto

/-- The core of the `NID_PATTERN` model is exactly the claim's grammar
widened by the four Unicode case-fold letters. -/
theorem nidCore_eq_claimU (s : PyStr) : nidCore s = claimNidGrammarU s := by
  cases s with
  | nil => rfl
  | cons c rest =>
    have h2 : isNidChar2 =
        (fun d => d.isAlphanum || ignorecaseExtraLatin d || decide (d = '-')) := by
      funext d
      simp [isNidChar2]
    simp only [nidCore, claimNidGrammarU, isNidChar1, claimAlnum_eq, h2]

/-- Claim C5 (amended): `NSIdentifier` construction succeeds exactly when
the raw string has length between 2 and 32 and matches the NID grammar —
its character classes widened by the four letters Python's Unicode
case-insensitive matching adds to `[a-z]` ranges (U+0130, U+0131, U+017F,
U+212A) — either directly or after discarding one final newline (Python's
`'$'` anchor also matches just before a trailing newline); on success the
textual representation is the stored input unchanged. -/
theorem nid_validation_newline (s : PyStr) :
    ((NSIdentifier.init s).isOk = true ↔
      (2 ≤ s.length ∧ s.length ≤ 32 ∧
        (claimNidGrammarU s = true ∨
          (s.getLast? = some '\n' ∧ claimNidGrammarU s.dropLast = true)))) ∧
    (∀ n, NSIdentifier.init s = Except.ok n → NSIdentifier.reprStr n = s) := by
  constructor
  · unfold NSIdentifier.init validate_nid
    split_ifs with h1 h2 h3
    · refine iff_of_false (by simp [Except.map, Except.isOk, Except.toBool]) ?_
      rintro ⟨h, -, -⟩; omega
    · refine iff_of_false (by simp [Except.map, Except.isOk, Except.toBool]) ?_
      rintro ⟨-, h, -⟩; omega
    · refine iff_of_false (by simp [Except.map, Except.isOk, Except.toBool]) ?_
      simp only [reMatchNid, nidCore_eq_claimU, Bool.not_eq_eq_eq_not, Bool.not_true,
        Bool.or_eq_false_iff, Bool.and_eq_false_iff, beq_eq_false_iff_ne, ne_eq] at h3
      rintro ⟨-, -, hg | ⟨hl, hg⟩⟩
      · rw [h3.1] at hg; exact Bool.false_ne_true hg
      · rcases h3.2 with h | h
        · exact h hl
        · rw [h] at hg; exact Bool.false_ne_true hg
    · refine iff_of_true (by simp [Except.map, Except.isOk, Except.toBool]) ?_
      refine ⟨by omega, by omega, ?_⟩
      simp only [reMatchNid, nidCore_eq_claimU, Bool.not_eq_true', Bool.not_eq_false] at h3
      rcases Bool.or_eq_true_iff.mp h3 with h | h
      · exact Or.inl h
      · rcases Bool.and_eq_true_iff.mp h with ⟨hl, hg⟩
        exact Or.inr ⟨beq_iff_eq.mp hl, hg⟩
  · intro n hn
    unfold NSIdentifier.init at hn
    cases hv : validate_nid s 2 32 with
    | error m => rw [hv] at hn; simp [Except.map] at hn
    | ok u => rw [hv] at hn; simp [Except.map] at hn; rw [← hn]; rfl

/-- Counterexample to C5 as stated, at two inputs of admissible length that
fail the claim's NID grammar yet are accepted by the code: `'ab\n'`
(because `re.match` lets `'$'` match just before the trailing newline) and
`'a'` followed by the Kelvin sign U+212A (because Unicode case-insensitive
matching lets it match `[a-z]`). -/
theorem nid_newline_counterexample :
    ((NSIdentifier.init ['a', 'b', '\n']).isOk = true ∧
      2 ≤ (['a', 'b', '\n'] : PyStr).length ∧ (['a', 'b', '\n'] : PyStr).length ≤ 32 ∧
      claimNidGrammar ['a', 'b', '\n'] = false) ∧
    ((NSIdentifier.init ['a', Char.ofNat 0x212A]).isOk = true ∧
      2 ≤ (['a', Char.ofNat 0x212A] : PyStr).length ∧
      (['a', Char.ofNat 0x212A] : PyStr).length ≤ 32 ∧
      claimNidGrammar ['a', Char.ofNat 0x212A] = false) := by decide

/-- Witness for the amended C5 theorem at the concrete NID `tests`. -/
theorem nid_validation_newline_witness :
    NSIdentifier.reprStr ⟨("tests").data⟩ = ("tests").data :=
  (nid_validation_newline (("tests").data)).2 ⟨("tests").data⟩ rfl

/-- Every Lean `Char` is a unicode scalar value, so its code point is
below `0x110000`. -/
theorem char_toNat_lt (c : Char) : c.toNat < 1114112 := by
  rcases c.valid with h | ⟨h1, h2⟩
  · exact Nat.lt_trans h (by norm_num)
  · exact h2

/-- `utf8Bytes` of a valid code point is non-empty and all its bytes are
below 256. -/
theorem utf8Bytes_shape (n : Nat) (hn : n < 1114112) :
    ∃ b bs, utf8Bytes n = b :: bs ∧ b < 256 ∧ ∀ x ∈ bs, x < 256 := by
  unfold utf8Bytes
  split_ifs with h1 h2 h3
  · exact ⟨n, [], rfl, by omega, by intro x hx; simp at hx⟩
  · refine ⟨_, _, rfl, by omega, ?_⟩
    intro x hx
    fin_cases hx <;> omega
  · refine ⟨_, _, rfl, by omega, ?_⟩
    intro x hx
    fin_cases hx <;> omega
  · refine ⟨_, _, rfl, by omega, ?_⟩
    intro x hx
    fin_cases hx <;> omega

/-- The sixteen hexadecimal digit characters are hex digits for the NSS
grammar and are none of the separator-relevant characters. -/
theorem hexDigit_props (m : Fin 16) :
    isHexDigitPy (hexDigit m.val) = true ∧ hexDigit m.val ≠ '+' ∧ hexDigit m.val ≠ '#' ∧
      hexDigit m.val ≠ '%' ∧ hexDigit m.val ≠ '&' ∧ hexDigit m.val ≠ '=' := by
  revert m
  decide

/-- A character safe for `quote` (default `safe='/'`) is not `'%'` and is
admissible in the tail groups of the NSS grammar. -/
theorem quoteSafeSlash_facts (c : Char) (h : quoteSafeSlash c = true) :
    c ≠ '%' ∧ (isNssPchar c || decide (c = '/') || decide (c = '?')) = true := by
  simp only [quoteSafeSlash, quoteAlwaysSafe, Bool.or_eq_true, decide_eq_true_eq] at h
  rcases h with ((((h | h) | h) | h) | h) | h
  · refine ⟨?_, ?_⟩
    · intro he
      rw [he] at h
      exact absurd h (by decide)
    · simp [isNssPchar, h]
  · subst h; exact ⟨by decide, by decide⟩
  · subst h; exact ⟨by decide, by decide⟩
  · subst h; exact ⟨by decide, by decide⟩
  · subst h; exact ⟨by decide, by decide⟩
  · subst h; exact ⟨by decide, by decide⟩

/-- A safe character other than `'/'` is a pchar. -/
theorem quoteSafe_pchar (c : Char) (h : quoteSafeSlash c = true) (hc : c ≠ '/') :
    c ≠ '%' ∧ isNssPchar c = true := by
  simp only [quoteSafeSlash, quoteAlwaysSafe, Bool.or_eq_true, decide_eq_true_eq] at h
  rcases h with ((((h | h) | h) | h) | h) | h
  · refine ⟨?_, by simp [isNssPchar, h]⟩
    intro he
    rw [he] at h
    exact absurd h (by decide)
  · subst h; exact ⟨by decide, by decide⟩
  · subst h; exact ⟨by decide, by decide⟩
  · subst h; exact ⟨by decide, by decide⟩
  · subst h; exact ⟨by decide, by decide⟩
  · exact absurd h hc

/-- Unfolding equation of `nssTail` for a head that is not `'%'`. -/
theorem nssTail_cons (c : Char) (t : PyStr) (hc : c ≠ '%') :
    nssTail (c :: t) = ((isNssPchar c || decide (c = '/') || decide (c = '?')) && nssTail t) := by
  match t with
  | [] => simp [nssTail, hc]
  | [a] => simp [nssTail, hc]
  | a :: b :: r => rw [nssTail.eq_2, if_neg hc]

/-- Unfolding equation of `nssTail` for a `%XX` escape. -/
theorem nssTail_percent_cons (a b : Char) (r : PyStr) :
    nssTail ('%' :: a :: b :: r) = (isHexDigitPy a && isHexDigitPy b && nssTail r) := by
  rw [nssTail.eq_2, if_pos rfl]

/-- Unfolding equation of `nssCore` for a head that is not `'%'`. -/
theorem nssCore_cons (c : Char) (t : PyStr) (hc : c ≠ '%') :
    nssCore (c :: t) = (isNssPchar c && nssTail t) := by
  match t with
  | [] => simp [nssCore, hc]
  | [a] => simp [nssCore, hc]
  | a :: b :: r => rw [nssCore.eq_2, if_neg hc]

/-- Unfolding equation of `nssCore` for a `%XX` escape. -/
theorem nssCore_percent_cons (a b : Char) (r : PyStr) :
    nssCore ('%' :: a :: b :: r) = (isHexDigitPy a && isHexDigitPy b && nssTail r) := by
  rw [nssCore.eq_2, if_pos rfl]

/-- A run of `%XX` escapes of bytes below 256 is transparent to the NSS
tail grammar. -/
theorem nssTail_percent_flatMap (bs : List Nat) (hbs : ∀ x ∈ bs, x < 256) (t : PyStr) :
    nssTail (bs.flatMap percentByte ++ t) = nssTail t := by
  induction bs with
  | nil => simp
  | cons b bs ih =>
    have hb : b < 256 := hbs b (by simp)
    have h1 := (hexDigit_props ⟨b / 16, by omega⟩).1
    have h2 := (hexDigit_props ⟨b % 16, by omega⟩).1
    simp only [List.flatMap_cons, percentByte, List.append_assoc, List.cons_append,
      List.nil_append]
    rw [nssTail_percent_cons, h1, h2, Bool.true_and, Bool.true_and]
    exact ih (fun x hx => hbs x (by simp [hx]))

/-- The output of `quote` for one character is transparent to the NSS tail
grammar. -/
theorem nssTail_append_quoteChar (c : Char) (t : PyStr) :
    nssTail (quoteChar quoteSafeSlash c ++ t) = nssTail t := by
  unfold quoteChar
  by_cases h : quoteSafeSlash c = true
  · rw [if_pos h]
    obtain ⟨hne, hg⟩ := quoteSafeSlash_facts c h
    simp only [List.cons_append, List.nil_append]
    rw [nssTail_cons c t hne, hg, Bool.true_and]
  · rw [if_neg h]
    obtain ⟨b, bs, heq, hb, hbs⟩ := utf8Bytes_shape c.toNat (char_toNat_lt c)
    rw [heq]
    exact nssTail_percent_flatMap (b :: bs)
      (by intro x hx; rcases List.mem_cons.mp hx with rfl | hx; exact hb; exact hbs x hx) t

/-- The whole output of `quote` satisfies the NSS tail grammar. -/
theorem nssTail_pyQuote (s : PyStr) : nssTail (pyQuote s) = true := by
  induction s with
  | nil => rfl
  | cons c s ih =>
    unfold pyQuote
    rw [List.flatMap_cons]
    have := nssTail_append_quoteChar c (s.flatMap (quoteChar quoteSafeSlash))
    rw [this]
    exact ih

/-- For a non-empty input whose first character is not `'/'`, the output of
`quote` matches the full NSS grammar (the first group is a pchar or a
`%XX` escape). -/
theorem nssCore_pyQuote_cons (c : Char) (s : PyStr) (hc : c ≠ '/') :
    nssCore (pyQuote (c :: s)) = true := by
  have htail : nssTail (pyQuote s) = true := nssTail_pyQuote s
  unfold pyQuote at htail ⊢
  rw [List.flatMap_cons]
  unfold quoteChar
  by_cases h : quoteSafeSlash c = true
  · rw [if_pos h]
    obtain ⟨hne, hp⟩ := quoteSafe_pchar c h hc
    simp only [List.cons_append, List.nil_append]
    rw [nssCore_cons _ _ hne, hp, Bool.true_and]
    exact htail
  · rw [if_neg h]
    obtain ⟨b, bs, heq, hb, hbs⟩ := utf8Bytes_shape c.toNat (char_toNat_lt c)
    rw [heq]
    have h1 := (hexDigit_props ⟨b / 16, by omega⟩).1
    have h2 := (hexDigit_props ⟨b % 16, by omega⟩).1
    simp only [List.flatMap_cons, percentByte, List.append_assoc, List.cons_append,
      List.nil_append]
    rw [nssCore_percent_cons, h1, h2, Bool.true_and, Bool.true_and]
    rw [nssTail_percent_flatMap bs hbs]
    exact htail

/-- `quote` emits at least one character per input character. -/
theorem quoteChar_ne_nil (safe : Char → Bool) (c : Char) : quoteChar safe c ≠ [] := by
  unfold quoteChar
  split_ifs with h
  · simp
  · obtain ⟨b, bs, heq, -, -⟩ := utf8Bytes_shape c.toNat (char_toNat_lt c)
    rw [heq]
    simp [percentByte]

/-- Claim C6 (amended): `NSSString` construction from a decoded string
(`encoded=False`) never fails, and for every non-empty input that does not
start with `'/'` the stored encoded form is non-empty and matches the NSS
grammar.  (The empty string yields an empty encoded form, and a leading
`'/'` survives `quote` unescaped, so both fall outside the invariant.) -/
theorem nss_encode_invariant :
    (∀ s : PyStr, (NSSString.init s false).isOk = true) ∧
    (∀ (c : Char) (s : PyStr), c ≠ '/' →
      ∀ n, NSSString.init (c :: s) false = Except.ok n →
        n.encoded ≠ [] ∧ nssMatch n.encoded = true) := by
  constructor
  · intro s
    rfl
  · intro c s hc n hn
    have hn' : n = ⟨pyQuote (c :: s), c :: s⟩ := by
      unfold NSSString.init at hn
      simp only [if_neg (by simp : ¬(false = true))] at hn
      exact (Except.ok.inj hn).symm
    subst hn'
    refine ⟨?_, ?_⟩
    · show pyQuote (c :: s) ≠ []
      unfold pyQuote
      rw [List.flatMap_cons]
      intro hemp
      rcases List.append_eq_nil.mp hemp with ⟨h1, -⟩
      exact quoteChar_ne_nil quoteSafeSlash c h1
    · show nssMatch (pyQuote (c :: s)) = true
      unfold nssMatch
      rw [nssCore_pyQuote_cons c s hc]
      rfl

/-- Counterexample to C6 as stated: for the empty raw string, construction
succeeds but the encoded form is empty, so it does not satisfy the claimed
NSS invariant. -/
theorem nss_encode_counterexample :
    NSSString.init [] false = Except.ok ⟨[], []⟩ ∧
      ¬(([] : PyStr) ≠ [] ∧ nssMatch [] = true) := by
  exact ⟨rfl, by simp⟩

/-- Witness for the amended C6 theorem at the concrete decoded string
`ab`. -/
theorem nss_encode_invariant_witness :
    (NSSString.init (['a', 'b']) false).isOk = true ∧
      ((⟨pyQuote ['a', 'b'], ['a', 'b']⟩ : NSSString).encoded ≠ [] ∧
        nssMatch (⟨pyQuote ['a', 'b'], ['a', 'b']⟩ : NSSString).encoded = true) :=
  ⟨nss_encode_invariant.1 ['a', 'b'],
    nss_encode_invariant.2 'a' ['b'] (by decide) _ rfl⟩

/-- A chunk without `'='` does not split. -/
theorem splitFirstEq_none (a : PyStr) (ha : '=' ∉ a) : splitFirstEq a = none := by
  induction a with
  | nil => rfl
  | cons c r ih =>
    simp only [List.mem_cons, not_or] at ha
    obtain ⟨hc, hr⟩ := ha
    have hc' : ¬(c = '=') := fun h => hc h.symm
    simp [splitFirstEq, hc', ih hr]

/-- Splitting on `'&'` peels off an `'&'`-free leading chunk. -/
theorem pySplitChar_amp_append (a b : PyStr) (ha : '&' ∉ a) :
    pySplitChar '&' (a ++ '&' :: b) = a :: pySplitChar '&' b := by
  induction a with
  | nil => simp [pySplitChar]
  | cons c r ih =>
    simp only [List.mem_cons, not_or] at ha
    obtain ⟨hc, hr⟩ := ha
    have hc' : ¬(c = '&') := fun h => hc h.symm
    have ih' : pySplitChar '&' (List.append r ('&' :: b)) = r :: pySplitChar '&' b := ih hr
    simp only [List.cons_append, pySplitChar, ih', if_neg hc']

/-- A chunk without `'='` is dropped by `parse_qsl`. -/
theorem qslChunk_junk (a : PyStr) (ha : '=' ∉ a) : qslChunk a = none := by
  unfold qslChunk
  split_ifs with h
  · rfl
  · rw [splitFirstEq_none a ha]

/-- A leading malformed (no `'='`) chunk contributes nothing to
`parse_qsl`. -/
theorem pyParseQsl_drop_junk (a b : PyStr) (heq : '=' ∉ a) (hamp : '&' ∉ a) :
    pyParseQsl (a ++ '&' :: b) = pyParseQsl b := by
  unfold pyParseQsl
  rw [pySplitChar_amp_append a b hamp]
  simp [List.filterMap_cons, qslChunk_junk a heq]

/-- Claim C7: RQF parsing never raises.  The empty RQF substring and any
substring the combined pattern rejects both give the empty component
(empty resolution map, empty query map, empty fragment); `from_string`
succeeds as soon as the scheme guard, the NID validation and the NSS
validation pass, whatever the RQF substring holds; and a malformed
query-string chunk is dropped rather than raising. -/
theorem rqf_never_fails :
    (URN8141.parse_rqf_component [] = ⟨[], [], some []⟩) ∧
    (∀ s, rqfMatch s = none → URN8141.parse_rqf_component s = ⟨[], [], some []⟩) ∧
    (∀ s e, pyStartswith s urnScheme = true → 2 ≤ List.count ':' s →
      (NSIdentifier.init (URN8141.nidOf s)).isOk = true →
      (NSSString.init (URN8141.nssOf s) e).isOk = true →
      (URN8141.from_string s e).isOk = true) ∧
    (∀ a b : PyStr, '=' ∉ a → '&' ∉ a → pyParseQsl (a ++ '&' :: b) = pyParseQsl b) := by
  refine ⟨rfl, ?_, ?_, ?_⟩
  · intro s h
    unfold URN8141.parse_rqf_component
    by_cases hs : s = []
    · simp [hs]; rfl
    · simp only [if_neg hs, h]
      rfl
  · intro s e h1 h2 h3 h4
    unfold URN8141.from_string
    have hcond : (!(pyStartswith s urnScheme) || decide (List.count ':' s < 2)) = false := by
      rw [h1]
      simp only [Bool.not_true, Bool.false_or, decide_eq_false_iff_not]
      omega
    obtain ⟨n, hn⟩ : ∃ n, NSIdentifier.init (URN8141.nidOf s) = Except.ok n := by
      cases hh : NSIdentifier.init (URN8141.nidOf s) with
      | ok n => exact ⟨n, rfl⟩
      | error m => rw [hh] at h3; simp [Except.isOk, Except.toBool] at h3
    obtain ⟨m, hm⟩ : ∃ m, NSSString.init (URN8141.nssOf s) e = Except.ok m := by
      cases hh : NSSString.init (URN8141.nssOf s) e with
      | ok m => exact ⟨m, rfl⟩
      | error x => rw [hh] at h4; simp [Except.isOk, Except.toBool] at h4
    simp only [hcond, Bool.false_eq_true, if_false, hn, hm]
    rfl
  · exact pyParseQsl_drop_junk

/-- Witness for C7: a newline-poisoned fragment degrades to the empty
component, a well-formed URN parses, and a junk chunk is dropped. -/
theorem rqf_never_fails_witness :
    (URN8141.parse_rqf_component ['#', 'a', '\n', 'b'] = ⟨[], [], some []⟩) ∧
      (URN8141.from_string ("urn:ab:cd?=x=y").data true).isOk = true ∧
      pyParseQsl (("junk").data ++ '&' :: ("x=y").data) = pyParseQsl (("x=y").data) :=
  ⟨rqf_never_fails.2.1 ['#', 'a', '\n', 'b'] (by decide),
   rqf_never_fails.2.2.1 (("urn:ab:cd?=x=y").data) true (by decide) (by decide)
     (by decide) (by decide),
   rqf_never_fails.2.2.2 (("junk").data) (("x=y").data) (by decide) (by decide)⟩

/-- Appending at the end of a non-empty list keeps its head. -/
theorem headD_append_of_ne_nil (vs : List PyStr) (v x : PyStr) (h : vs ≠ []) :
    (vs ++ [v]).headD x = vs.headD x := by
  cases vs with
  | nil => exact absurd rfl h
  | cons a t => rfl

/-- `dictAppend` preserves the invariant that every key maps to a
non-empty value list. -/
theorem dictAppend_inv (d : List (PyStr × List PyStr)) (k v : PyStr)
    (hinv : ∀ p ∈ d, p.2 ≠ []) : ∀ p ∈ dictAppend d k v, p.2 ≠ [] := by
  induction d with
  | nil => intro p hp; simp [dictAppend] at hp; simp [hp]
  | cons q rest ih =>
    obtain ⟨k0, vs⟩ := q
    intro p hp
    by_cases hk : k0 = k
    · simp only [dictAppend, if_pos hk] at hp
      rcases List.mem_cons.mp hp with rfl | hp
      · simp
      · exact hinv p (List.mem_cons_of_mem _ hp)
    · simp only [dictAppend, if_neg hk] at hp
      rcases List.mem_cons.mp hp with rfl | hp
      · exact hinv (k0, vs) (by simp)
      · exact ih (fun q hq => hinv q (List.mem_cons_of_mem _ hq)) p hp

/-- One `dictAppend` step: an existing binding's first value survives, and
a fresh key lands at the end with the new value. -/
theorem lookup_dictAppend (d : List (PyStr × List PyStr)) (k' v k : PyStr)
    (hinv : ∀ p ∈ d, p.2 ≠ []) :
    lookupPairs ((dictAppend d k' v).map (fun p => (p.1, p.2.headD []))) k =
      (match lookupPairs (d.map (fun p => (p.1, p.2.headD []))) k with
       | some w => some w
       | none => if k' == k then some v else none) := by
  unfold lookupPairs
  induction d with
  | nil =>
    by_cases h : (k' == k) = true <;>
      simp [dictAppend, List.find?_cons, h]
  | cons q rest ih =>
    obtain ⟨k0, vs⟩ := q
    have h0 : vs ≠ [] := hinv (k0, vs) (by simp)
    have hrest : ∀ p ∈ rest, p.2 ≠ [] := fun q hq => hinv q (List.mem_cons_of_mem _ hq)
    by_cases hk : k0 = k'
    · rw [show dictAppend ((k0, vs) :: rest) k' v = (k0, vs ++ [v]) :: rest from by
        simp [dictAppend, hk]]
      simp only [List.map_cons, List.find?_cons]
      rw [headD_append_of_ne_nil vs v [] h0]
      by_cases hkk : (k0 == k) = true
      · simp [hkk]
      · subst hk
        simp only [hkk, Bool.false_eq_true, if_false]
        cases hfind : (rest.map (fun p => (p.1, p.2.headD []))).find? (fun p => p.1 == k) with
        | none => simp [hfind, hkk]
        | some w => simp [hfind]
    · rw [show dictAppend ((k0, vs) :: rest) k' v = (k0, vs) :: dictAppend rest k' v from by
        simp [dictAppend, hk]]
      simp only [List.map_cons, List.find?_cons]
      by_cases hkk : (k0 == k) = true
      · simp [hkk]
      · simp only [hkk, Bool.false_eq_true, if_false]
        exact ih hrest

/-- Folding `dictAppend` over a pair list: the first-value view of the
resulting dict binds each key to its first occurrence in the list (after
any binding already in the accumulator). -/
theorem lookup_foldl_dict (l : List (PyStr × PyStr)) (d : List (PyStr × List PyStr))
    (k : PyStr) (hinv : ∀ p ∈ d, p.2 ≠ []) :
    lookupPairs ((l.foldl (fun d p => dictAppend d p.1 p.2) d).map
        (fun p => (p.1, p.2.headD []))) k =
      (match lookupPairs (d.map (fun p => (p.1, p.2.headD []))) k with
       | some w => some w
       | none => (l.find? (fun p => p.1 == k)).map (fun p => p.2)) := by
  induction l generalizing d with
  | nil =>
    simp only [List.foldl_nil, List.find?_nil, Option.map_none]
    cases lookupPairs (d.map (fun p => (p.1, p.2.headD []))) k <;> rfl
  | cons p l ih =>
    rw [List.foldl_cons, ih (dictAppend d p.1 p.2) (dictAppend_inv d p.1 p.2 hinv),
      lookup_dictAppend d p.1 p.2 k hinv]
    simp only [List.find?_cons]
    by_cases hkk : (p.1 == k) = true
    · cases lookupPairs (d.map (fun q => (q.1, q.2.headD []))) k <;> simp [hkk]
    · cases lookupPairs (d.map (fun q => (q.1, q.2.headD []))) k <;> simp [hkk]

/-- The query/resolution maps built by `RQFComponent.__init__` bind each
key to the value of its first occurrence in `parse_qsl`'s output. -/
theorem qsSingleDict_lookup (s k : PyStr) :
    lookupPairs (qsSingleDict (some s)) k =
      ((pyParseQsl s).find? (fun p => p.1 == k)).map (fun p => p.2) := by
  unfold qsSingleDict
  by_cases hs : s = []
  · subst hs
    simp only [if_pos rfl]
    rfl
  · simp only [if_neg hs]
    unfold pyParseQs
    rw [lookup_foldl_dict (pyParseQsl s) [] k (by simp)]
    rfl

/-- Claim C8: when a resolution or query string contains a key several
times, the map binds the key to the decoded value of its first occurrence
(the first `parse_qsl` entry with that key); concretely `a=1&a=2` binds
`a` to `1`. -/
theorem rqf_first_occurrence (rs qs : PyStr) (fr : Option PyStr) (k : PyStr) :
    (lookupPairs (RQFComponent.init (some rs) (some qs) fr).query_args k =
      ((pyParseQsl qs).find? (fun p => p.1 == k)).map (fun p => p.2)) ∧
    (lookupPairs (RQFComponent.init (some rs) (some qs) fr).resolution_args k =
      ((pyParseQsl rs).find? (fun p => p.1 == k)).map (fun p => p.2)) ∧
    (lookupPairs (RQFComponent.init none (some (("a=1&a=2").data)) none).query_args
        (("a").data) = some (("1").data)) :=
  ⟨qsSingleDict_lookup qs k, qsSingleDict_lookup rs k, by decide⟩

/-- All UTF-8 bytes of a valid code point are below 256. -/
theorem utf8Bytes_lt (n : Nat) (hn : n < 1114112) : ∀ b ∈ utf8Bytes n, b < 256 := by
  obtain ⟨b0, bs, heq, hb0, hbs⟩ := utf8Bytes_shape n hn
  rw [heq]
  intro b hb
  rcases List.mem_cons.mp hb with rfl | hb
  · exact hb0
  · exact hbs b hb

/-- A character that is unsafe for `quote`, is not `'%'` and is not a
hexadecimal digit character never appears in `quote`'s output for a single
character. -/
theorem not_mem_quoteChar (x c : Char) (hsafe : quoteAlwaysSafe x = false)
    (hpct : x ≠ '%') (hhex : ∀ m : Fin 16, hexDigit m.val ≠ x) :
    x ∉ quoteChar quoteAlwaysSafe c := by
  unfold quoteChar
  split_ifs with h
  · simp only [List.mem_singleton]
    intro he
    subst he
    rw [hsafe] at h
    exact Bool.false_ne_true h
  · intro hx
    rcases List.mem_flatMap.mp hx with ⟨b, hb, hxb⟩
    have hb256 : b < 256 := utf8Bytes_lt c.toNat (char_toNat_lt c) b hb
    rcases List.mem_cons.mp hxb with rfl | hxb
    · exact hpct rfl
    · rcases List.mem_cons.mp hxb with heq | hxb
      · exact hhex ⟨b / 16, by omega⟩ heq.symm
      · rcases List.mem_singleton.mp hxb with rfl
        exact hhex ⟨b % 16, by omega⟩ rfl

/-- `quote` with `safe=''` never emits `'+'` (a space becomes `%20`). -/
theorem plus_not_mem_quoteEmpty (s : PyStr) : '+' ∉ pyQuoteEmpty s := by
  intro h
  rcases List.mem_flatMap.mp h with ⟨c, -, hc⟩
  exact not_mem_quoteChar '+' c (by decide) (by decide)
    (fun m => (hexDigit_props m).2.1) hc

/-- `quote` with `safe=''` never emits `'#'`. -/
theorem hash_not_mem_quoteEmpty (s : PyStr) : '#' ∉ pyQuoteEmpty s := by
  intro h
  rcases List.mem_flatMap.mp h with ⟨c, -, hc⟩
  exact not_mem_quoteChar '#' c (by decide) (by decide)
    (fun m => (hexDigit_props m).2.2.1) hc

/-- `urlencode` emits `key=value`, quoting both sides, and joins entries
with `'&'`. -/
theorem pyUrlencode_cons (k v : PyStr) (rest : List (PyStr × PyStr)) :
    pyUrlencode ((k, v) :: rest) =
      (pyQuoteEmpty k ++ '=' :: pyQuoteEmpty v) ++
        (if rest = [] then [] else '&' :: pyUrlencode rest) := by
  cases rest with
  | nil => simp [pyUrlencode]
  | cons p l => simp [pyUrlencode]

/-- `urlencode` output never contains `'#'`. -/
theorem hash_not_mem_urlencode (d : List (PyStr × PyStr)) : '#' ∉ pyUrlencode d := by
  induction d with
  | nil => simp [pyUrlencode]
  | cons p rest ih =>
    obtain ⟨k, v⟩ := p
    rw [pyUrlencode_cons]
    intro h
    rcases List.mem_append.mp h with h | h
    · rcases List.mem_append.mp h with h | h
      · exact hash_not_mem_quoteEmpty k h
      · rcases List.mem_cons.mp h with h | h
        · exact absurd h (by decide)
        · exact hash_not_mem_quoteEmpty v h
    · by_cases hr : rest = []
      · rw [if_pos hr] at h
        simp at h
      · rw [if_neg hr] at h
        rcases List.mem_cons.mp h with h | h
        · exact absurd h (by decide)
        · exact ih h

/-- `RQFComponent.__repr__` is the concatenation of the `?+` resolution
part, the `?=` query part and the `#` fragment part, each emitted only
when its data is non-empty. -/
theorem reprStr_structure (r : RQFComponent) :
    RQFComponent.reprStr r =
      (if r.resolution_args = [] then []
       else resolutionSeperator ++ pyUrlencode r.resolution_args) ++
      (if r.query_args = [] then [] else querySeperator ++ pyUrlencode r.query_args) ++
      (match r.fragment with
       | none => []
       | some f => if f = [] then [] else fragmentSeperator ++ f) := by
  obtain ⟨ra, qa, fr⟩ := r
  rcases fr with - | f
  · by_cases hra : ra = [] <;> by_cases hqa : qa = [] <;>
      simp [RQFComponent.reprStr, hra, hqa, ne_eq, List.length_eq_zero]
  · by_cases hra : ra = [] <;> by_cases hqa : qa = [] <;> by_cases hf : f = [] <;>
      simp [RQFComponent.reprStr, hra, hqa, hf, ne_eq, List.length_eq_zero]

/-- Claim C9: the serialized RQF component is `?+urlencode(resolution)`
(only if non-empty), then `?=urlencode(query)` (only if non-empty), then
`#fragment` (only if non-empty), with entries as `key=value` joined by
`'&'`, values percent-encoded with a space as `%20` and never `'+'`; and
the concrete example serializes to
`?=a=a%20test&b=b%20test#example.org`. -/
theorem rqf_serialization :
    (∀ r : RQFComponent,
      RQFComponent.reprStr r =
        (if r.resolution_args = [] then []
         else resolutionSeperator ++ pyUrlencode r.resolution_args) ++
        (if r.query_args = [] then [] else querySeperator ++ pyUrlencode r.query_args) ++
        (match r.fragment with
         | none => []
         | some f => if f = [] then [] else fragmentSeperator ++ f)) ∧
    (∀ (k v : PyStr) (rest : List (PyStr × PyStr)),
      pyUrlencode ((k, v) :: rest) =
        (pyQuoteEmpty k ++ '=' :: pyQuoteEmpty v) ++
          (if rest = [] then [] else '&' :: pyUrlencode rest)) ∧
    (∀ s : PyStr, pyQuoteEmpty (' ' :: s) = '%' :: '2' :: '0' :: pyQuoteEmpty s) ∧
    (∀ s : PyStr, '+' ∉ pyQuoteEmpty s) ∧
    (RQFComponent.reprStr (RQFComponent.init (some []) (some qstrExample) (some fragExample)) =
      ("?=a=a%20test&b=b%20test#example.org").data) ∧
    ((RQFComponent.init (some []) (some qstrExample) (some fragExample)).query_args =
      [(("a").data, ("a test").data), (("b").data, ("b test").data)]) :=
  ⟨reprStr_structure, pyUrlencode_cons, fun _ => rfl, plus_not_mem_quoteEmpty,
    by decide, by decide⟩

/-- Claim C10: for `urn:ab:cd?=x=y` the RQF region matches the pattern
with the resolution and fragment groups absent (`None`), the resulting
component's fragment accessor yields the absent value (not `''`), the
textual round-trip is unaffected, and in general a component whose
fragment is absent serializes without any `'#'`. -/
theorem rqf_missing_groups :
    (rqfMatch (("?=x=y").data) = some ⟨none, some (("x=y").data), none⟩) ∧
    ((URN8141.from_string urnPlainQuery true).toOption.map
        (fun u => (u.rqf.fragment, u.rqf.resolution_args, URN8141.reprStr u)) =
      some (none, [], urnPlainQuery)) ∧
    ((none : Option PyStr) ≠ some []) ∧
    (∀ r q : Option PyStr, (RQFComponent.init r q none).fragment = none) ∧
    (∀ ra qa : List (PyStr × PyStr), '#' ∉ RQFComponent.reprStr ⟨ra, qa, none⟩) := by
  refine ⟨by decide, by decide, by simp, fun r q => rfl, ?_⟩
  intro ra qa h
  rw [reprStr_structure] at h
  simp only at h
  rcases List.mem_append.mp h with h | h
  · rcases List.mem_append.mp h with h | h
    · by_cases hra : ra = []
      · rw [if_pos hra] at h
        simp at h
      · rw [if_neg hra] at h
        rcases List.mem_append.mp h with h | h
        · exact absurd h (by decide)
        · exact hash_not_mem_urlencode ra h
    · by_cases hqa : qa = []
      · rw [if_pos hqa] at h
        simp at h
      · rw [if_neg hqa] at h
        rcases List.mem_append.mp h with h | h
        · exact absurd h (by decide)
        · exact hash_not_mem_urlencode qa h
  · simp at h
